import Mathlib

/-!
Shallow embedding of the goon event-dispatch engine (`src/goon-module.c`)
and proofs about its queue, handler pipeline, recency cache, object pool
and serialization surface.

Modelling conventions:
* C machine integers become `Nat`/`Int`; `uint32_t` overflow is written
  explicitly with `% 2^32` where it can occur.
* Pointers are modelled as `Nat` identifiers, with `0` playing the role of
  `NULL`; `malloc` is assumed to succeed (out-of-memory paths are not
  exercised by any claim).
* `time(NULL)` and the `clock()`-derived elapsed milliseconds are passed in
  as explicit parameters (`now : Int`, `elapsed : Nat → ℚ`): the C code
  reads them from the environment, the model receives them as oracles.
* C `double` arithmetic on `avg_exec_time` is modelled over `ℚ`.
* Intrusive `next` pointers (event queue, handler list) become `List`s.
-/

set_option autoImplicit false

namespace Goon

/-! ### Error codes (`GOON_SUCCESS` … `GOON_ERROR_UNDERFLOW`) -/

def GOON_SUCCESS : Int := 0
def GOON_ERROR : Int := -1
def GOON_ERROR_NULL_PTR : Int := -2
def GOON_ERROR_INVALID_PARAM : Int := -3
def GOON_ERROR_OUT_OF_MEMORY : Int := -4
def GOON_ERROR_NOT_FOUND : Int := -5
def GOON_ERROR_OVERFLOW : Int := -6
def GOON_ERROR_UNDERFLOW : Int := -7

def GOON_MAX_NAME_LEN : Nat := 128
def GOON_MAX_QUEUE_SIZE : Nat := 1024
def GOON_CACHE_SIZE : Nat := 64
def GOON_POOL_SIZE : Nat := 128

/-! ### `goon_state_t` -/

inductive GoonState where
  | idle
  | initializing
  | running
  | paused
  | stopping
  | error
  | terminated
deriving DecidableEq, Repr

/-! ### `goon_event_t`

The `data` payload and `user_data` fields are opaque references the modelled
operations never inspect (the driver only passes them through); they are
modelled as `Nat` pointer identifiers with `0` for `NULL`.  The intrusive
`next` link is absorbed into the queue's `List`. -/

structure Event where
  id : Nat
  name : String
  priority : Int
  timestamp : Int
  data : Nat
  user_data : Nat
deriving DecidableEq, Repr

/-- `goon_event_create`: stamps the next event id, truncates the name to
`GOON_MAX_NAME_LEN - 1` characters (`strncpy` + forced NUL), stamps
`time(NULL)` and zeroes `data`/`user_data`. -/
def goon_event_create (nextId : Nat) (name : String) (priority : Int) (now : Int) : Event :=
  { id := nextId % 2^32
    name := String.mk (name.toList.take (GOON_MAX_NAME_LEN - 1))
    priority := priority
    timestamp := now
    data := 0
    user_data := 0 }

/-! ### `goon_queue_t` -/

structure Queue where
  /-- The linked list from `head` to `tail`; `head` is `events.head?`. -/
  events : List Event
  size : Nat
  max_size : Nat
deriving DecidableEq, Repr

/-- `goon_queue_create`. -/
def goon_queue_create (max_size : Nat) : Queue :=
  { events := [], size := 0, max_size := if 0 < max_size then max_size else GOON_MAX_QUEUE_SIZE }

/-- `goon_queue_push`: overflow check against `max_size`, then link at tail.
The source's null-pointer checks vanish: queue and event are values here. -/
def goon_queue_push (q : Queue) (e : Event) : Int × Queue :=
  if q.size ≥ q.max_size then
    (GOON_ERROR_OVERFLOW, q)
  else
    (GOON_SUCCESS, { q with events := q.events ++ [e], size := q.size + 1 })

/-- `goon_queue_pop`: unlink head (returns `none` for an empty queue, the
source's `NULL`). -/
def goon_queue_pop (q : Queue) : Option Event × Queue :=
  match q.events with
  | [] => (none, q)
  | e :: rest => (some e, { q with events := rest, size := q.size - 1 })

/-- `goon_queue_size`. -/
def goon_queue_size (q : Queue) : Nat := q.size

/-- `goon_queue_is_empty`. -/
def goon_queue_is_empty (q : Queue) : Bool := q.size == 0

/-- A run of `goon_queue_push` calls, all of which must succeed
(`GOON_SUCCESS`); `none` if any push fails. -/
def pushAllSucc (q : Queue) : List Event → Option Queue
  | [] => some q
  | e :: rest =>
    let r := goon_queue_push q e
    if r.1 = GOON_SUCCESS then pushAllSucc r.2 rest else none

/-- `n` successive `goon_queue_pop` calls, collecting the popped events in
order. -/
def popN : Nat → Queue → List Event × Queue
  | 0, q => ([], q)
  | n + 1, q =>
    match goon_queue_pop q with
    | (none, q1) => ([], q1)
    | (some e, q1) =>
      let r := popN n q1
      (e :: r.1, r.2)

theorem pushAllSucc_events (es : List Event) : ∀ (q q' : Queue),
    pushAllSucc q es = some q' →
    q'.events = q.events ++ es ∧ q'.size = q.size + es.length ∧ q'.max_size = q.max_size := by
  induction es with
  | nil => intro q q' h; simp [pushAllSucc] at h; simp [← h]
  | cons e rest ih =>
    intro q q' h
    simp only [pushAllSucc, goon_queue_push] at h
    by_cases hfull : q.size ≥ q.max_size
    · simp [hfull, GOON_ERROR_OVERFLOW, GOON_SUCCESS] at h
    · simp only [hfull, if_false, GOON_SUCCESS, if_pos] at h
      obtain ⟨h1, h2, h3⟩ := ih _ _ h
      simp only [List.length_cons] at h1 h2 h3 ⊢
      exact ⟨by rw [h1]; simp, by omega, h3⟩

theorem popN_drains (es : List Event) : ∀ (q : Queue), q.events = es →
    popN es.length q = (es, { q with events := [], size := q.size - es.length }) := by
  induction es with
  | nil =>
    intro q h
    simp only [popN, List.length_nil, Nat.sub_zero]
    cases q
    simp_all
  | cons e rest ih =>
    intro q h
    simp only [List.length_cons, popN, goon_queue_pop, h]
    rw [ih { q with events := rest, size := q.size - 1 } rfl]
    simp only [Prod.mk.injEq, Queue.mk.injEq, true_and, and_true]
    omega

/-- C4: queue FIFO.  If pushes of `e₁ … eₙ` onto a fresh queue all succeed,
then `n` pops return exactly `e₁, e₂, …, eₙ` in push order, and one more pop
on the now-empty queue returns `NULL` and leaves the queue unchanged. -/
theorem queue_fifo (m : Nat) (es : List Event) (q : Queue)
    (h : pushAllSucc (goon_queue_create m) es = some q) :
    (popN es.length q).1 = es ∧
    (goon_queue_pop (popN es.length q).2).1 = none ∧
    (goon_queue_pop (popN es.length q).2).2 = (popN es.length q).2 := by
  obtain ⟨h1, h2, _⟩ := pushAllSucc_events es _ _ h
  simp only [goon_queue_create] at h1 h2
  rw [popN_drains es q (by simpa using h1)]
  simp [goon_queue_pop]

/-- Two concrete events used by the queue witnesses. -/
def witnessEventA : Event := ⟨1, "a", 0, 0, 0, 0⟩

/-- Second concrete event used by the queue witnesses. -/
def witnessEventB : Event := ⟨2, "b", 1, 0, 0, 0⟩

/-- C4 witness: pushing two concrete events onto an empty queue of
capacity 3 and popping them back yields the events in push order, then
`NULL`. -/
theorem queue_fifo_witness :
    (pushAllSucc (goon_queue_create 3) [witnessEventA, witnessEventB] =
      some ⟨[witnessEventA, witnessEventB], 2, 3⟩) ∧
    (popN 2 (⟨[witnessEventA, witnessEventB], 2, 3⟩ : Queue)).1 =
      [witnessEventA, witnessEventB] :=
  ⟨by decide,
    (queue_fifo 3 [witnessEventA, witnessEventB]
      ⟨[witnessEventA, witnessEventB], 2, 3⟩ (by decide)).1⟩

/-- C5: a push onto a queue whose `size` equals `max_size` returns
`GOON_ERROR_OVERFLOW` and returns the queue bit-for-bit unchanged (same
`size`, same event sequence, hence same head and tail). -/
theorem queue_overflow_unchanged (q : Queue) (e : Event) (h : q.size = q.max_size) :
    goon_queue_push q e = (GOON_ERROR_OVERFLOW, q) := by
  simp [goon_queue_push, h]

/-- C5 witness: pushing onto a concrete full queue (capacity 1) fails with
`GOON_ERROR_OVERFLOW` and leaves it unchanged. -/
theorem queue_overflow_unchanged_witness :
    goon_queue_push ⟨[⟨1, "a", 0, 0, 0, 0⟩], 1, 1⟩ ⟨2, "b", 0, 0, 0, 0⟩ =
      (GOON_ERROR_OVERFLOW, ⟨[⟨1, "a", 0, 0, 0, 0⟩], 1, 1⟩) :=
  queue_overflow_unchanged _ _ (by decide)

/-! ### `goon_stack_t`, `goon_cache_t`, `goon_pool_t` (data shapes)

The stack holds opaque borrowed references (pointer identifiers).  Cache
slots `[0, count)` become a list of entries; the fixed 64-slot arrays are
recovered by the invariant `entries.length ≤ GOON_CACHE_SIZE`.  Pool slots
`objects[0, size)` become a list of (pointer, in-use) pairs; `fresh` models
the next distinct nonzero pointer the pool's `alloc` returns. -/

structure Stack where
  items : List Nat
  size : Nat
  capacity : Nat
deriving DecidableEq, Repr

structure CacheEntry where
  key : String
  value : List Nat
  size : Nat
  timestamp : Int
deriving DecidableEq, Repr

structure Cache where
  entries : List CacheEntry
deriving DecidableEq, Repr

structure PoolSlot where
  ptr : Nat
  in_use : Bool
deriving DecidableEq, Repr

structure Pool where
  slots : List PoolSlot
  capacity : Nat
  fresh : Nat
deriving DecidableEq, Repr

/-! ### `goon_handler_t`

The callback `func` closes over the C `user_data` pointer and the context
argument; the modelled driver only consumes its integer status, so it is
embedded as `Event → Int`.  `avg_exec_time` (a C `double`) is modelled
over `ℚ`. -/

structure Handler where
  id : Nat
  name : String
  func : Event → Int
  enabled : Bool
  call_count : Nat
  error_count : Nat
  avg_exec_time : ℚ

/-- `goon_handler_create`: next handler id, truncated name, enabled, zeroed
statistics. -/
def goon_handler_create (nextId : Nat) (name : String) (func : Event → Int) : Handler :=
  { id := nextId % 2^32
    name := String.mk (name.toList.take (GOON_MAX_NAME_LEN - 1))
    func := func
    enabled := true
    call_count := 0
    error_count := 0
    avg_exec_time := 0 }

/-! ### `goon_context_t` -/

structure Context where
  id : Nat
  name : String
  state : GoonState
  /-- Head-inserted singly-linked handler list (`ctx->handlers`). -/
  handlers : List Handler
  handler_count : Nat
  event_queue : Queue
  call_stack : Stack
  cache : Cache
  memory_pool : Pool
  event_count : Nat
  total_events_processed : Nat
  start_time : Int
  user_data : Nat
  debug_mode : Bool

/-- `goon_context_create`: fresh id, truncated name, `Idle` state, empty
subcomponents (allocation assumed to succeed). -/
def goon_context_create (nextId : Nat) (name : String) (now : Int) : Context :=
  { id := nextId % 2^32
    name := String.mk (name.toList.take (GOON_MAX_NAME_LEN - 1))
    state := GoonState.idle
    handlers := []
    handler_count := 0
    event_queue := goon_queue_create GOON_MAX_QUEUE_SIZE
    call_stack := { items := [], size := 0, capacity := 512 }
    cache := { entries := [] }
    memory_pool := { slots := [], capacity := GOON_POOL_SIZE, fresh := 1 }
    event_count := 0
    total_events_processed := 0
    start_time := now
    user_data := 0
    debug_mode := false }

/-- `goon_context_register_handler`: head insertion into the handler list. -/
def goon_context_register_handler (ctx : Context) (h : Handler) : Int × Context :=
  (GOON_SUCCESS,
    { ctx with handlers := h :: ctx.handlers, handler_count := ctx.handler_count + 1 })

/-- `goon_context_set_state`: unchecked state write. -/
def goon_context_set_state (ctx : Context) (s : GoonState) : Int × Context :=
  (GOON_SUCCESS, { ctx with state := s })

/-- `goon_context_emit_event`: push onto the queue; bump `event_count` only
on success. -/
def goon_context_emit_event (ctx : Context) (e : Event) : Int × Context :=
  let r := goon_queue_push ctx.event_queue e
  if r.1 = GOON_SUCCESS then
    (r.1, { ctx with event_queue := r.2, event_count := ctx.event_count + 1 })
  else
    (r.1, { ctx with event_queue := r.2 })

/-! ### Driver (`goon_context_process_events`)

The two `clock()` reads around each callback are summarised by the oracle
`elapsed : Nat → ℚ`, giving the elapsed milliseconds of the `k`-th handler
invocation of the processing pass.  Besides the updated state the model
returns the trace of invoked handler ids in call order — an observation
used to state the ordering claims; it does not influence the state. -/

/-- The statistics update the driver performs after one callback
(`call_count++`, running mean of `avg_exec_time`, `error_count` on a
non-`GOON_SUCCESS` result). -/
def updateHandlerStats (h : Handler) (result : Int) (exec_time : ℚ) : Handler :=
  let cc := h.call_count + 1
  { h with
    call_count := cc
    avg_exec_time := (h.avg_exec_time * ((cc : ℚ) - 1) + exec_time) / (cc : ℚ)
    error_count := if result ≠ GOON_SUCCESS then h.error_count + 1 else h.error_count }

/-- The inner handler-list walk for one event: every enabled handler is
invoked (disabled ones are skipped), statistics are updated, and the walk
never short-circuits on a callback error.  Returns the updated handler
list, the trace of invoked handler ids, and the advanced invocation
counter. -/
def runHandlers (elapsed : Nat → ℚ) (e : Event) :
    List Handler → Nat → List Handler × List Nat × Nat
  | [], k => ([], [], k)
  | h :: rest, k =>
    if h.enabled then
      let r := runHandlers elapsed e rest (k + 1)
      (updateHandlerStats h (h.func e) (elapsed k) :: r.1, h.id :: r.2.1, r.2.2)
    else
      let r := runHandlers elapsed e rest k
      (h :: r.1, r.2.1, r.2.2)

/-- The outer `while (!empty) pop` loop: events leave the queue in FIFO
order and each is dispatched to the handler list, then destroyed. -/
def processLoop (elapsed : Nat → ℚ) :
    List Event → List Handler → Nat → List Handler × List Nat
  | [], hs, _ => (hs, [])
  | ev :: rest, hs, k =>
    let r := runHandlers elapsed ev hs k
    let r2 := processLoop elapsed rest r.1 r.2.2
    (r2.1, r.2.1 ++ r2.2)

/-- `goon_context_process_events`: refuse with `GOON_ERROR` unless
`Running`; otherwise drain the queue, dispatch every event, and return the
number of events processed. -/
def goon_context_process_events (elapsed : Nat → ℚ) (ctx : Context) :
    Int × Context × List Nat :=
  if ctx.state ≠ GoonState.running then
    (GOON_ERROR, ctx, [])
  else
    let evs := ctx.event_queue.events
    let r := processLoop elapsed evs ctx.handlers 0
    ((evs.length : Int),
      { ctx with
        handlers := r.1
        event_queue := { ctx.event_queue with events := [], size := ctx.event_queue.size - evs.length }
        total_events_processed := ctx.total_events_processed + evs.length },
      r.2)

/-- `goon_start`. -/
def goon_start (ctx : Context) : Int × Context :=
  (GOON_SUCCESS, (goon_context_set_state ctx GoonState.running).2)

/-- `goon_stop`: set `Stopping`, call `goon_context_process_events`
(result discarded), set `Terminated`. -/
def goon_stop (elapsed : Nat → ℚ) (ctx : Context) : Int × Context :=
  let c1 := (goon_context_set_state ctx GoonState.stopping).2
  let r := goon_context_process_events elapsed c1
  (GOON_SUCCESS, (goon_context_set_state r.2.1 GoonState.terminated).2)

/-- `goon_pause`. -/
def goon_pause (ctx : Context) : Int × Context :=
  (GOON_SUCCESS, (goon_context_set_state ctx GoonState.paused).2)

/-- `goon_resume`. -/
def goon_resume (ctx : Context) : Int × Context :=
  (GOON_SUCCESS, (goon_context_set_state ctx GoonState.running).2)

/-! ### C2: `process` on a non-`Running` context -/

/-- C2: on a context whose state is not `Running`,
`goon_context_process_events` returns `GOON_ERROR`, the context — in
particular the event queue and every handler's `call_count`,
`error_count` and `avg_exec_time` — is completely unchanged, and no
handler is invoked (empty trace). -/
theorem process_not_running (elapsed : Nat → ℚ) (ctx : Context)
    (h : ctx.state ≠ GoonState.running) :
    goon_context_process_events elapsed ctx = (GOON_ERROR, ctx, []) := by
  simp [goon_context_process_events, h]

/-- Concrete paused context with one queued event, for the C2 witness. -/
def c2Event : Event := ⟨7, "e", 1, 0, 0, 0⟩

/-- Concrete paused context for the C2 witness. -/
def c2Ctx : Context :=
  { goon_context_create 2 "w" 0 with
    state := GoonState.paused
    event_queue := ⟨[c2Event], 1, GOON_MAX_QUEUE_SIZE⟩ }

/-- C2 witness: the theorem applied to a concrete paused context holding
one queued event. -/
theorem process_not_running_witness :
    c2Ctx.state ≠ GoonState.running ∧
    goon_context_process_events (fun _ => 0) c2Ctx = (GOON_ERROR, c2Ctx, []) :=
  ⟨by decide, process_not_running (fun _ => 0) c2Ctx (by decide)⟩

/-! ### C3: handler invocation order -/

/-- A sequence of `goon_context_register_handler` calls, first to last. -/
def registerAll (ctx : Context) (hs : List Handler) : Context :=
  hs.foldl (fun c h => (goon_context_register_handler c h).2) ctx

theorem registerAll_spec (hs : List Handler) : ∀ (ctx : Context),
    (registerAll ctx hs).handlers = hs.reverse ++ ctx.handlers ∧
    (registerAll ctx hs).state = ctx.state ∧
    (registerAll ctx hs).event_queue = ctx.event_queue := by
  induction hs with
  | nil => intro ctx; simp [registerAll]
  | cons h rest ih =>
    intro ctx
    have := ih (goon_context_register_handler ctx h).2
    simp only [registerAll, List.foldl_cons] at this ⊢
    simp only [goon_context_register_handler] at this
    simpa using this

theorem runHandlers_trace (elapsed : Nat → ℚ) (e : Event) :
    ∀ (hs : List Handler) (k : Nat),
    (runHandlers elapsed e hs k).2.1 =
      (hs.filter (fun h => h.enabled)).map (fun h => h.id) := by
  intro hs
  induction hs with
  | nil => intro k; simp [runHandlers]
  | cons h rest ih =>
    intro k
    by_cases he : h.enabled
    · simp [runHandlers, he, ih]
    · simp [runHandlers, he, ih]

/-- C3: registering `h₁ … hₙ` (in that order) on a running context with no
prior handlers and processing a single queued event invokes exactly the
enabled handlers, in the reverse of registration order
`hₙ, hₙ₋₁, …, h₁`. -/
theorem handler_invocation_order (elapsed : Nat → ℚ) (ctx : Context)
    (hs : List Handler) (e : Event)
    (h0 : ctx.handlers = [])
    (hst : ctx.state = GoonState.running)
    (hq : ctx.event_queue.events = [e]) :
    (goon_context_process_events elapsed (registerAll ctx hs)).2.2 =
      (hs.reverse.filter (fun h => h.enabled)).map (fun h => h.id) := by
  obtain ⟨hh, hstate, hqueue⟩ := registerAll_spec hs ctx
  simp [goon_context_process_events, hstate, hst, hqueue, hq, processLoop,
    runHandlers_trace, hh, h0]

/-- First concrete enabled handler for the C3 witness. -/
def c3Handler1 : Handler := ⟨1, "A", fun _ => 0, true, 0, 0, 0⟩

/-- Second concrete enabled handler for the C3 witness. -/
def c3Handler2 : Handler := ⟨2, "B", fun _ => 0, true, 0, 0, 0⟩

/-- Concrete running context with one queued event for the C3 witness. -/
def c3Ctx : Context :=
  { goon_context_create 3 "w" 0 with
    state := GoonState.running
    event_queue := ⟨[c2Event], 1, GOON_MAX_QUEUE_SIZE⟩ }

/-- C3 witness: registering handlers 1 then 2 and processing one event
invokes them in the order 2, 1. -/
theorem handler_invocation_order_witness :
    c3Ctx.handlers = [] ∧
    (goon_context_process_events (fun _ => 0)
        (registerAll c3Ctx [c3Handler1, c3Handler2])).2.2 = [2, 1] :=
  ⟨rfl,
    (handler_invocation_order (fun _ => 0) c3Ctx [c3Handler1, c3Handler2] c2Event
        rfl rfl rfl).trans (by decide)⟩

/-! ### C7: per-handler statistics -/

/-- Arithmetic mean of a list of elapsed times (`0` for the empty list,
matching the zero-initialised `avg_exec_time`). -/
def listMean (ts : List ℚ) : ℚ := ts.sum / ts.length

/-- The running-mean update performed by the driver turns the arithmetic
mean of the previously observed times into the arithmetic mean including
the new observation. -/
theorem updateHandlerStats_avg (h : Handler) (r : Int) (t : ℚ) (ts : List ℚ)
    (hcc : h.call_count = ts.length) (havg : h.avg_exec_time = listMean ts) :
    (updateHandlerStats h r t).avg_exec_time = listMean (ts ++ [t]) := by
  simp only [updateHandlerStats, listMean] at *
  rcases ts with _ | ⟨t0, ts'⟩
  · simp at hcc
    simp [hcc, havg]
  · have hlen : ((t0 :: ts').length : ℚ) ≠ 0 := by
      rw [List.length_cons]
      push_cast
      exact Nat.cast_add_one_ne_zero ts'.length
    rw [hcc, havg]
    have h1 : (((t0 :: ts').length + 1 : Nat) : ℚ) - 1 = ((t0 :: ts').length : ℚ) := by
      push_cast; ring
    rw [h1, div_mul_cancel₀ _ hlen]
    simp only [List.cons_append, List.sum_cons, List.sum_append, List.sum_nil,
      List.length_cons, List.length_append, List.length_nil]
    push_cast
    ring_nf

/-- Number of enabled handlers strictly before position `i` in the handler
list: the invocation-counter offset the driver has consumed when it
reaches handler `i`. -/
def enabledBefore (hs : List Handler) (i : Nat) : Nat :=
  ((hs.take i).filter (fun h => h.enabled)).length

theorem runHandlers_length (elapsed : Nat → ℚ) (e : Event) :
    ∀ (hs : List Handler) (k : Nat),
    (runHandlers elapsed e hs k).1.length = hs.length := by
  intro hs
  induction hs with
  | nil => intro k; simp [runHandlers]
  | cons h rest ih =>
    intro k
    by_cases he : h.enabled <;> simp [runHandlers, he, ih]

theorem runHandlers_getElem (elapsed : Nat → ℚ) (e : Event) :
    ∀ (hs : List Handler) (k i : Nat) (h : Handler),
    hs[i]? = some h → h.enabled = true →
    (runHandlers elapsed e hs k).1[i]? =
      some (updateHandlerStats h (h.func e) (elapsed (k + enabledBefore hs i))) := by
  intro hs
  induction hs with
  | nil => intro k i h hg _; simp at hg
  | cons h0 rest ih =>
    intro k i h hg hen
    cases i with
    | zero =>
      simp only [List.getElem?_cons_zero, Option.some.injEq] at hg
      subst hg
      simp [runHandlers, hen, enabledBefore]
    | succ j =>
      simp only [List.getElem?_cons_succ] at hg
      by_cases he : h0.enabled
      · have harith : (k + 1) + enabledBefore rest j = k + enabledBefore (h0 :: rest) (j + 1) := by
          simp [enabledBefore, List.take_succ_cons, List.filter_cons, he]
          omega
        simp only [runHandlers, he, if_pos, List.getElem?_cons_succ]
        rw [ih (k + 1) j h hg hen, harith]
      · have harith : k + enabledBefore rest j = k + enabledBefore (h0 :: rest) (j + 1) := by
          simp [enabledBefore, List.take_succ_cons, List.filter_cons, he]
        simp only [runHandlers, he, if_neg, Bool.false_eq_true, not_false_eq_true,
          List.getElem?_cons_succ]
        rw [ih k j h hg hen, harith]

/-- C7 counterexample: the claim quantifies over *every* handler, but a
disabled handler is skipped by the driver: on a running context holding
one event and one disabled handler, processing leaves the handler's
`call_count` at `0`, not incremented to `1` as the claim states. -/
def c7DisabledHandler : Handler := ⟨1, "h", fun _ => 0, false, 0, 0, 0⟩

/-- Concrete event for the C7 counterexample. -/
def c7Event : Event := ⟨9, "e", 1, 0, 0, 0⟩

/-- Concrete running context with one queued event and one disabled
handler. -/
def c7Ctx : Context :=
  { goon_context_create 7 "w" 0 with
    state := GoonState.running
    handlers := [c7DisabledHandler]
    handler_count := 1
    event_queue := ⟨[c7Event], 1, GOON_MAX_QUEUE_SIZE⟩ }

/-- C7 counterexample: after processing one event, the disabled handler's
`call_count` is still `0`, refuting "for every handler h … `h.call_count`
increments by exactly 1". -/
theorem stats_claim_counterexample :
    (goon_context_process_events (fun _ => 0) c7Ctx).2.1.handlers.map
        (fun h => h.call_count) = [0] ∧
    (goon_context_process_events (fun _ => 0) c7Ctx).2.1.handlers.map
        (fun h => h.call_count) ≠ [c7DisabledHandler.call_count + 1] := by
  constructor <;> decide

/-- C7 (amended to *enabled* handlers): when a running context processes
its single queued event `e`, every enabled handler `h` (at position `i` of
the handler list) has its `call_count` incremented by exactly 1, its
`error_count` incremented iff its callback returned non-`GOON_SUCCESS`,
its `avg_exec_time` turned into the arithmetic mean of all observed
elapsed times, and `h` is invoked (its id appears in the trace) no matter
what any callback returned. -/
theorem stats_per_event (elapsed : Nat → ℚ) (ctx : Context) (e : Event)
    (i : Nat) (h : Handler) (ts : List ℚ) (t : ℚ)
    (hst : ctx.state = GoonState.running)
    (hq : ctx.event_queue.events = [e])
    (hget : ctx.handlers[i]? = some h)
    (hen : h.enabled = true)
    (hcc : h.call_count = ts.length)
    (havg : h.avg_exec_time = listMean ts)
    (ht : t = elapsed (enabledBefore ctx.handlers i)) :
    (goon_context_process_events elapsed ctx).2.1.handlers[i]? =
      some (updateHandlerStats h (h.func e) t) ∧
    (updateHandlerStats h (h.func e) t).call_count = h.call_count + 1 ∧
    ((updateHandlerStats h (h.func e) t).error_count =
      if h.func e ≠ GOON_SUCCESS then h.error_count + 1 else h.error_count) ∧
    (updateHandlerStats h (h.func e) t).avg_exec_time = listMean (ts ++ [t]) ∧
    h.id ∈ (goon_context_process_events elapsed ctx).2.2 := by
  have hmem : h ∈ ctx.handlers := by
    obtain ⟨hlt, hval⟩ := List.getElem?_eq_some.mp hget
    exact hval ▸ List.getElem_mem hlt
  refine ⟨?_, rfl, rfl, updateHandlerStats_avg h (h.func e) t ts hcc havg, ?_⟩
  · simp only [goon_context_process_events, hst, hq, processLoop]
    rw [if_neg (by simp)]
    simpa [ht] using runHandlers_getElem elapsed e ctx.handlers 0 i h hget hen
  · simp only [goon_context_process_events, hst, hq, processLoop]
    rw [if_neg (by simp)]
    simp only [runHandlers_trace, List.append_nil]
    exact List.mem_map_of_mem _ (List.mem_filter.mpr ⟨hmem, hen⟩)

/-- Concrete enabled handler for the C7 witness: its callback returns the
error status `5`. -/
def c7wHandler : Handler := ⟨3, "h", fun _ => 5, true, 0, 0, 0⟩

/-- Concrete running context for the C7 witness. -/
def c7wCtx : Context :=
  { goon_context_create 7 "w" 0 with
    state := GoonState.running
    handlers := [c7wHandler]
    handler_count := 1
    event_queue := ⟨[c7Event], 1, GOON_MAX_QUEUE_SIZE⟩ }

/-- C7 witness: the amended theorem applied at a concrete running context,
one enabled handler whose callback errors, one queued event, with
`elapsed ≡ 2` milliseconds. -/
theorem stats_per_event_witness :
    c7wCtx.state = GoonState.running ∧ c7wCtx.handlers[0]? = some c7wHandler ∧
    c7wHandler.enabled = true ∧ c7wHandler.call_count = ([] : List ℚ).length ∧
    c7wHandler.avg_exec_time = listMean [] ∧
    ((goon_context_process_events (fun _ => 2) c7wCtx).2.1.handlers[0]? =
        some (updateHandlerStats c7wHandler (c7wHandler.func c7Event) 2) ∧
      (updateHandlerStats c7wHandler (c7wHandler.func c7Event) 2).call_count =
        c7wHandler.call_count + 1 ∧
      ((updateHandlerStats c7wHandler (c7wHandler.func c7Event) 2).error_count =
        if c7wHandler.func c7Event ≠ GOON_SUCCESS then c7wHandler.error_count + 1
        else c7wHandler.error_count) ∧
      (updateHandlerStats c7wHandler (c7wHandler.func c7Event) 2).avg_exec_time =
        listMean ([] ++ [2]) ∧
      c7wHandler.id ∈ (goon_context_process_events (fun _ => 2) c7wCtx).2.2) :=
  ⟨rfl, rfl, rfl, rfl, by simp [c7wHandler, listMean],
    stats_per_event (fun _ => 2) c7wCtx c7Event 0 c7wHandler [] 2 rfl rfl rfl rfl rfl
      (by simp [c7wHandler, listMean]) rfl⟩

/-! ### C1: `goon_stop` -/

/-- Concrete enabled handler for the C1 failing input. -/
def c1Handler : Handler := ⟨1, "h", fun _ => 0, true, 0, 0, 0⟩

/-- Concrete event for the C1 failing input. -/
def c1Event : Event := ⟨1, "e", 1, 0, 0, 0⟩

/-- The C1 failing input: a running context with one enabled handler and
one queued event. -/
def c1Ctx : Context :=
  { goon_context_create 1 "c" 0 with
    state := GoonState.running
    handlers := [c1Handler]
    handler_count := 1
    event_queue := ⟨[c1Event], 1, GOON_MAX_QUEUE_SIZE⟩ }

/-- C1 (code bug, evaluated at the failing input): `goon_stop` sets the
state to `Stopping` *before* its final `goon_context_process_events` call,
so that call fails the `Running` precondition and drains nothing — the
queued event survives, no handler runs, `total_events_processed` stays 0 —
even though the code's own comment says "Process remaining events" and the
claim says the queue is drained.  The context still ends `Terminated`. -/
theorem stop_does_not_drain :
    ((goon_stop (fun _ => 0) c1Ctx).2.state = GoonState.terminated) ∧
    ((goon_stop (fun _ => 0) c1Ctx).2.event_queue.events = [c1Event]) ∧
    ((goon_stop (fun _ => 0) c1Ctx).2.handlers.map (fun h => h.call_count) = [0]) ∧
    ((goon_stop (fun _ => 0) c1Ctx).2.total_events_processed = 0) := by
  refine ⟨?_, ?_, ?_, ?_⟩ <;> decide

/-! ### C6: `goon_cache_set` eviction -/

instance : Inhabited CacheEntry := ⟨⟨"", [], 0, 0⟩⟩

/-- `strncpy` into a `GOON_MAX_NAME_LEN` buffer with forced NUL: keep the
first 127 characters. -/
def truncName (s : String) : String := String.mk (s.toList.take (GOON_MAX_NAME_LEN - 1))

/-- The key-probe loop of `goon_cache_set` (`strcmp` scan over
`[0, count)`): on a hit, free the old buffer and overwrite value, size and
timestamp in place, leaving the stored key bytes alone. -/
def cacheSetLoop (key : String) (value : List Nat) (now : Int) :
    List CacheEntry → Option (List CacheEntry)
  | [] => none
  | en :: rest =>
    if en.key = key then
      some ({ en with value := value, size := value.length, timestamp := now } :: rest)
    else
      (cacheSetLoop key value now rest).map (en :: ·)

/-- The eviction scan of `goon_cache_set`: `oldest_idx = 0`,
`oldest_time = timestamps[0]`, then for `i = 1 …` take `i` whenever
`timestamps[i] < oldest_time` (strict, so the first minimum wins). -/
def oldestIdxGo : List Int → Nat → Nat → Int → Nat
  | [], _, best, _ => best
  | t :: rest, i, best, bt =>
    if t < bt then oldestIdxGo rest (i + 1) i t else oldestIdxGo rest (i + 1) best bt

/-- Index of the oldest timestamp (first on ties), as computed by the
eviction scan. -/
def oldestIdx : List Int → Nat
  | [] => 0
  | t :: rest => oldestIdxGo rest 1 0 t

/-- `goon_cache_set`: update in place on a key hit; append while
`count < GOON_CACHE_SIZE`; otherwise overwrite the slot with the minimum
timestamp.  `malloc` is assumed to succeed (the `GOON_ERROR_OUT_OF_MEMORY`
paths are not modelled). -/
def goon_cache_set (c : Cache) (key : String) (value : List Nat) (now : Int) : Int × Cache :=
  match cacheSetLoop key value now c.entries with
  | some entries1 => (GOON_SUCCESS, ⟨entries1⟩)
  | none =>
    if c.entries.length ≥ GOON_CACHE_SIZE then
      let i := oldestIdx (c.entries.map (fun en => en.timestamp))
      (GOON_SUCCESS, ⟨c.entries.set i ⟨truncName key, value, value.length, now⟩⟩)
    else
      (GOON_SUCCESS, ⟨c.entries ++ [⟨truncName key, value, value.length, now⟩]⟩)

theorem cacheSetLoop_none (key : String) (value : List Nat) (now : Int) :
    ∀ (l : List CacheEntry), (∀ en ∈ l, en.key ≠ key) →
    cacheSetLoop key value now l = none := by
  intro l
  induction l with
  | nil => intro _; rfl
  | cons en rest ih =>
    intro habs
    have h1 : en.key ≠ key := habs en (List.mem_cons_self en rest)
    have h2 : ∀ x ∈ rest, x.key ≠ key := fun x hx => habs x (List.mem_cons_of_mem en hx)
    simp [cacheSetLoop, h1, ih h2]

theorem oldestIdxGo_spec : ∀ (rest : List Int) (i best : Nat) (bt : Int),
    (oldestIdxGo rest i best bt = best ∧ ∀ k, k < rest.length → bt ≤ rest.getD k 0)
    ∨ (∃ k, k < rest.length ∧
        oldestIdxGo rest i best bt = i + k ∧
        rest.getD k 0 < bt ∧
        (∀ m, m < rest.length → rest.getD k 0 ≤ rest.getD m 0) ∧
        (∀ m, m < k → rest.getD k 0 < rest.getD m 0)) := by
  intro rest
  induction rest with
  | nil => intro i best bt; left; exact ⟨rfl, fun k hk => absurd hk (by simp)⟩
  | cons t rest ih =>
    intro i best bt
    by_cases ht : t < bt
    · rcases ih (i + 1) i t with ⟨heq, hall⟩ | ⟨k, hk, heq, hlt, hmin, hfirst⟩
      · right
        refine ⟨0, by simp, ?_, ?_, ?_, ?_⟩
        · simpa [oldestIdxGo, ht] using heq
        · simpa using ht
        · intro m hm
          cases m with
          | zero => simp
          | succ m' => simpa using hall m' (by simpa using hm)
        · intro m hm; omega
      · right
        refine ⟨k + 1, by simpa using hk, ?_, ?_, ?_, ?_⟩
        · simp only [oldestIdxGo, ht, if_pos]
          rw [heq]
          omega
        · simpa using lt_trans hlt ht
        · intro m hm
          cases m with
          | zero => simpa using le_of_lt hlt
          | succ m' => simpa using hmin m' (by simpa using hm)
        · intro m hm
          cases m with
          | zero => simpa using hlt
          | succ m' => simpa using hfirst m' (by omega)
    · rcases ih (i + 1) best bt with ⟨heq, hall⟩ | ⟨k, hk, heq, hlt, hmin, hfirst⟩
      · left
        refine ⟨by simpa [oldestIdxGo, ht] using heq, ?_⟩
        intro k hk
        cases k with
        | zero => simpa using not_lt.mp ht
        | succ k' => simpa using hall k' (by simpa using hk)
      · right
        refine ⟨k + 1, by simpa using hk, ?_, ?_, ?_, ?_⟩
        · simp only [oldestIdxGo, ht, if_neg, not_false_eq_true]
          rw [heq]
          omega
        · simpa using hlt
        · intro m hm
          cases m with
          | zero => simpa using le_of_lt (lt_of_lt_of_le hlt (not_lt.mp ht))
          | succ m' => simpa using hmin m' (by simpa using hm)
        · intro m hm
          cases m with
          | zero => simpa using lt_of_lt_of_le hlt (not_lt.mp ht)
          | succ m' => simpa using hfirst m' (by omega)

/-- The eviction scan picks an in-range index whose timestamp is minimal,
and on ties the lowest such index. -/
theorem oldestIdx_firstMin (ts : List Int) (hne : ts ≠ []) :
    oldestIdx ts < ts.length ∧
    (∀ j, j < ts.length → ts.getD (oldestIdx ts) 0 ≤ ts.getD j 0) ∧
    (∀ j, j < oldestIdx ts → ts.getD (oldestIdx ts) 0 < ts.getD j 0) := by
  rcases ts with _ | ⟨t, rest⟩
  · exact absurd rfl hne
  · rcases oldestIdxGo_spec rest 1 0 t with ⟨heq, hall⟩ | ⟨k, hk, heq, hlt, hmin, hfirst⟩
    · have hidx : oldestIdx (t :: rest) = 0 := heq
      refine ⟨by simp [hidx], ?_, ?_⟩
      · intro j hj
        cases j with
        | zero => simp [hidx]
        | succ j' => simpa [hidx] using hall j' (by simpa using hj)
      · intro j hj; omega
    · have hidx : oldestIdx (t :: rest) = k + 1 := by
        show oldestIdxGo rest 1 0 t = k + 1
        omega
      refine ⟨by simp [hidx]; omega, ?_, ?_⟩
      · intro j hj
        cases j with
        | zero => simpa [hidx] using le_of_lt hlt
        | succ j' => simpa [hidx] using hmin j' (by simpa using hj)
      · intro j hj
        rw [hidx] at hj
        cases j with
        | zero => simpa [hidx] using hlt
        | succ j' => simpa [hidx] using hfirst j' (by omega)

theorem getD_map_timestamp : ∀ (l : List CacheEntry) (j : Nat), j < l.length →
    (l.map (fun en => en.timestamp)).getD j 0 = (l.getD j default).timestamp := by
  intro l
  induction l with
  | nil => intro j hj; simp at hj
  | cons en rest ih =>
    intro j hj
    cases j with
    | zero => simp
    | succ j' => simpa using ih j' (by simpa using hj)

theorem getD_set_ne (x : CacheEntry) : ∀ (l : List CacheEntry) (i j : Nat), j ≠ i →
    (l.set i x).getD j default = l.getD j default := by
  intro l
  induction l with
  | nil => intro i j _; simp
  | cons en rest ih =>
    intro i j hne
    cases i with
    | zero =>
      cases j with
      | zero => exact absurd rfl hne
      | succ j' => simp [List.set]
    | succ i' =>
      cases j with
      | zero => simp [List.set]
      | succ j' => simpa [List.set] using ih i' j' (by omega)

/-- C6: on a full cache (`count = GOON_CACHE_SIZE = 64`) and a key that is
not present, `goon_cache_set` overwrites in place the slot `i` whose
timestamp is minimal — on ties the lowest such index — with the truncated
new key, the copied value, its size, and the fresh timestamp `now`; every
other slot is unchanged and the count stays 64. -/
theorem cache_full_evicts_oldest (c : Cache) (key : String) (value : List Nat) (now : Int)
    (i : Nat)
    (hfull : c.entries.length = GOON_CACHE_SIZE)
    (habs : ∀ en ∈ c.entries, en.key ≠ key)
    (hi : i = oldestIdx (c.entries.map (fun en => en.timestamp))) :
    goon_cache_set c key value now =
      (GOON_SUCCESS, ⟨c.entries.set i ⟨truncName key, value, value.length, now⟩⟩) ∧
    i < GOON_CACHE_SIZE ∧
    (∀ j, j < GOON_CACHE_SIZE →
      (c.entries.getD i default).timestamp ≤ (c.entries.getD j default).timestamp) ∧
    (∀ j, j < i →
      (c.entries.getD i default).timestamp < (c.entries.getD j default).timestamp) ∧
    (∀ j, j ≠ i →
      (c.entries.set i ⟨truncName key, value, value.length, now⟩).getD j default =
        c.entries.getD j default) ∧
    (c.entries.set i ⟨truncName key, value, value.length, now⟩).length = GOON_CACHE_SIZE := by
  have hmaplen : (c.entries.map (fun en => en.timestamp)).length = GOON_CACHE_SIZE := by
    simpa using hfull
  have hne : c.entries.map (fun en => en.timestamp) ≠ [] := by
    intro hcon
    rw [hcon] at hmaplen
    simp [GOON_CACHE_SIZE] at hmaplen
  obtain ⟨hlt, hmin, hfirst⟩ := oldestIdx_firstMin _ hne
  rw [hmaplen] at hlt
  rw [← hi] at hlt hmin hfirst
  refine ⟨?_, hlt, ?_, ?_, fun j hj => getD_set_ne _ _ _ _ hj, by simpa using hfull⟩
  · simp only [goon_cache_set, cacheSetLoop_none key value now c.entries habs, hfull,
      ge_iff_le, le_refl, if_pos, ← hi]
  · intro j hj
    have := hmin j (by rw [hmaplen]; exact hj)
    rwa [getD_map_timestamp _ i (by omega), getD_map_timestamp _ j (by omega)] at this
  · intro j hj
    have := hfirst j hj
    rwa [getD_map_timestamp _ i (by omega), getD_map_timestamp _ j (by omega)] at this

/-- A concrete full cache for the C6 witness: 64 slots with keys
`"0" … "63"` and ascending timestamps `0 … 63`. -/
def c6Cache : Cache :=
  ⟨(List.range GOON_CACHE_SIZE).map (fun n => ⟨Nat.repr n, [n], 1, (n : Int)⟩)⟩

/-- C6 witness: inserting key `"zz"` into the concrete full cache evicts
slot 0 (the minimal timestamp), leaving the other slots unchanged. -/
theorem cache_full_evicts_oldest_witness :
    c6Cache.entries.length = GOON_CACHE_SIZE ∧
    (∀ en ∈ c6Cache.entries, en.key ≠ "zz") ∧
    (goon_cache_set c6Cache "zz" [7] 99 =
        (GOON_SUCCESS, ⟨c6Cache.entries.set 0 ⟨truncName "zz", [7], 1, 99⟩⟩) ∧
      0 < GOON_CACHE_SIZE ∧
      (∀ j, j < GOON_CACHE_SIZE →
        (c6Cache.entries.getD 0 default).timestamp ≤ (c6Cache.entries.getD j default).timestamp) ∧
      (∀ j, j < 0 →
        (c6Cache.entries.getD 0 default).timestamp < (c6Cache.entries.getD j default).timestamp) ∧
      (∀ j, j ≠ 0 →
        (c6Cache.entries.set 0 ⟨truncName "zz", [7], 1, 99⟩).getD j default =
          c6Cache.entries.getD j default) ∧
      (c6Cache.entries.set 0 ⟨truncName "zz", [7], 1, 99⟩).length = GOON_CACHE_SIZE) :=
  ⟨by decide, by decide,
    by
      have h := cache_full_evicts_oldest c6Cache "zz" [7] 99 0 (by decide) (by decide) (by decide)
      simpa using h⟩

/-! ### C9/C10: `goon_pool_acquire` / `goon_pool_release`

`goon_pool_create` yields `⟨[], capacity, 1⟩`: no slots allocated yet and
the next `alloc` result modelled as pointer `1` (distinct nonzero pointers
`1, 2, …`).  The requested `size` is forwarded to `alloc` for a fresh slot
and otherwise ignored — exactly as in the source, which reuses a slot
regardless of the size it was allocated with (spec §9, open question 1). -/

/-- `goon_pool_create`. -/
def goon_pool_create (capacity : Nat) : Pool :=
  { slots := [], capacity := if 0 < capacity then capacity else GOON_POOL_SIZE, fresh := 1 }

/-- The availability scan of `goon_pool_acquire`: first slot with
`!in_use[i] && objects[i]`, marked in-use. -/
def acquireScan : List PoolSlot → Option (Nat × List PoolSlot)
  | [] => none
  | s :: rest =>
    if s.in_use = false ∧ s.ptr ≠ 0 then
      some (s.ptr, { s with in_use := true } :: rest)
    else
      (acquireScan rest).map (fun r => (r.1, s :: r.2))

/-- `goon_pool_acquire`: reuse the first free slot, else allocate a fresh
object while below capacity, else fail (`NULL`). -/
def goon_pool_acquire (p : Pool) (size : Nat) : Option Nat × Pool :=
  match acquireScan p.slots with
  | some r => (some r.1, { p with slots := r.2 })
  | none =>
    if p.slots.length < p.capacity then
      (some p.fresh, { p with slots := p.slots ++ [⟨p.fresh, true⟩], fresh := p.fresh + 1 })
    else
      (none, p)

/-- The pointer-identity scan of `goon_pool_release`: clear `in_use` on the
first slot holding `obj`. -/
def releaseScan (o : Nat) : List PoolSlot → Option (List PoolSlot)
  | [] => none
  | s :: rest =>
    if s.ptr = o then some ({ s with in_use := false } :: rest)
    else (releaseScan o rest).map (s :: ·)

/-- `goon_pool_release`: `NULL` argument check, then pointer-identity scan;
`GOON_ERROR_NOT_FOUND` if the pointer is not pool-owned. -/
def goon_pool_release (p : Pool) (o : Nat) : Int × Pool :=
  if o = 0 then (GOON_ERROR_NULL_PTR, p)
  else
    match releaseScan o p.slots with
    | some slots1 => (GOON_SUCCESS, { p with slots := slots1 })
    | none => (GOON_ERROR_NOT_FOUND, p)
theorem acquireScan_cons (s : PoolSlot) (rest : List PoolSlot) :
    acquireScan (s :: rest) =
      if s.in_use = false ∧ s.ptr ≠ 0 then
        some (s.ptr, { s with in_use := true } :: rest)
      else
        (acquireScan rest).map (fun r => (r.1, s :: r.2)) := rfl

theorem releaseScan_cons (o : Nat) (s : PoolSlot) (rest : List PoolSlot) :
    releaseScan o (s :: rest) =
      if s.ptr = o then some ({ s with in_use := false } :: rest)
      else (releaseScan o rest).map (s :: ·) := rfl

theorem acquireScan_ptr_ne_zero : ∀ (slots : List PoolSlot) (o : Nat) (slots1 : List PoolSlot),
    acquireScan slots = some (o, slots1) → o ≠ 0 := by
  intro slots
  induction slots with
  | nil => intro o slots1 h; simp [acquireScan] at h
  | cons s rest ih =>
    intro o slots1 h
    rw [acquireScan_cons] at h
    by_cases hc : s.in_use = false ∧ s.ptr ≠ 0
    · rw [if_pos hc] at h
      simp only [Option.some.injEq, Prod.mk.injEq] at h
      exact h.1 ▸ hc.2
    · rw [if_neg hc] at h
      rcases hrec : acquireScan rest with _ | r
      · rw [hrec] at h; simp at h
      · rw [hrec] at h
        simp only [Option.map_some', Option.some.injEq, Prod.mk.injEq] at h
        exact h.1 ▸ ih r.1 r.2 hrec

theorem acquireScan_none : ∀ (slots : List PoolSlot), acquireScan slots = none →
    ∀ s ∈ slots, ¬(s.in_use = false ∧ s.ptr ≠ 0) := by
  intro slots
  induction slots with
  | nil => intro _ s hs; simp at hs
  | cons s0 rest ih =>
    intro h s hs
    rw [acquireScan_cons] at h
    by_cases hc : s0.in_use = false ∧ s0.ptr ≠ 0
    · rw [if_pos hc] at h; simp at h
    · rw [if_neg hc] at h
      rcases hrec : acquireScan rest with _ | r
      · rcases List.mem_cons.mp hs with hs0 | hsr
        · exact hs0 ▸ hc
        · exact ih hrec s hsr
      · rw [hrec] at h; simp at h

theorem reacquire_after_release : ∀ (slots : List PoolSlot) (o : Nat)
    (slots1 slots2 : List PoolSlot),
    acquireScan slots = some (o, slots1) →
    releaseScan o slots1 = some slots2 →
    ∃ slots3, acquireScan slots2 = some (o, slots3) ∧
      ∃ i : Nat, slots3[i]? = some (⟨o, true⟩ : PoolSlot) := by
  intro slots
  induction slots with
  | nil => intro o slots1 slots2 h1 _; simp [acquireScan] at h1
  | cons s rest ih =>
    intro o slots1 slots2 h1 h2
    have hone : o ≠ 0 := acquireScan_ptr_ne_zero _ _ _ h1
    rw [acquireScan_cons] at h1
    by_cases hc : s.in_use = false ∧ s.ptr ≠ 0
    · rw [if_pos hc] at h1
      simp only [Option.some.injEq, Prod.mk.injEq] at h1
      obtain ⟨ho, hsl⟩ := h1
      rw [← hsl, releaseScan_cons, if_pos (show s.ptr = o from ho)] at h2
      simp only [Option.some.injEq] at h2
      refine ⟨(⟨o, true⟩ : PoolSlot) :: rest, ?_, 0, by simp⟩
      rw [← h2, acquireScan_cons]
      rw [if_pos (by exact ⟨rfl, ho ▸ hc.2⟩)]
      simp [ho]
    · rw [if_neg hc] at h1
      rcases hrec : acquireScan rest with _ | r
      · rw [hrec] at h1; simp at h1
      · rw [hrec] at h1
        simp only [Option.map_some', Option.some.injEq, Prod.mk.injEq] at h1
        obtain ⟨ho, hsl⟩ := h1
        rw [← hsl, releaseScan_cons] at h2
        by_cases hp : s.ptr = o
        · rw [if_pos hp] at h2
          simp only [Option.some.injEq] at h2
          refine ⟨(⟨o, true⟩ : PoolSlot) :: r.2, ?_, 0, by simp⟩
          rw [← h2, acquireScan_cons]
          rw [if_pos (by exact ⟨rfl, hp ▸ hone⟩)]
          simp [hp]
        · rw [if_neg hp] at h2
          rcases hrel : releaseScan o r.2 with _ | rest2
          · rw [hrel] at h2; simp at h2
          · rw [hrel] at h2
            simp only [Option.map_some', Option.some.injEq] at h2
            obtain ⟨rest3, hacq, i, hi⟩ := ih o r.2 rest2 (ho ▸ hrec) hrel
            refine ⟨s :: rest3, ?_, i + 1, by simpa using hi⟩
            rw [← h2, acquireScan_cons, if_neg hc, hacq]
            rfl

theorem reacquire_fresh_after_release : ∀ (slots : List PoolSlot) (o : Nat) (b : Bool)
    (slots2 : List PoolSlot),
    (∀ s ∈ slots, ¬(s.in_use = false ∧ s.ptr ≠ 0)) →
    o ≠ 0 →
    releaseScan o (slots ++ [⟨o, b⟩]) = some slots2 →
    ∃ slots3, acquireScan slots2 = some (o, slots3) ∧
      ∃ i : Nat, slots3[i]? = some (⟨o, true⟩ : PoolSlot) := by
  intro slots
  induction slots with
  | nil =>
    intro o b slots2 _ hone h2
    rw [List.nil_append, releaseScan_cons, if_pos rfl] at h2
    simp only [Option.some.injEq] at h2
    refine ⟨[(⟨o, true⟩ : PoolSlot)], ?_, 0, by simp⟩
    rw [← h2, acquireScan_cons]
    rw [if_pos (by exact ⟨rfl, hone⟩)]
  | cons s rest ih =>
    intro o b slots2 hall hone h2
    rw [List.cons_append, releaseScan_cons] at h2
    by_cases hp : s.ptr = o
    · rw [if_pos hp] at h2
      simp only [Option.some.injEq] at h2
      refine ⟨(⟨o, true⟩ : PoolSlot) :: (rest ++ [⟨o, b⟩]), ?_, 0, by simp⟩
      rw [← h2, acquireScan_cons]
      rw [if_pos (by exact ⟨rfl, hp ▸ hone⟩)]
      simp [hp]
    · rw [if_neg hp] at h2
      rcases hrel : releaseScan o (rest ++ [⟨o, b⟩]) with _ | rest2
      · rw [hrel] at h2; simp at h2
      · rw [hrel] at h2
        simp only [Option.map_some', Option.some.injEq] at h2
        have hsfail : ¬(s.in_use = false ∧ s.ptr ≠ 0) := hall s (List.mem_cons_self s rest)
        obtain ⟨rest3, hacq, i, hi⟩ :=
          ih o b rest2 (fun x hx => hall x (List.mem_cons_of_mem s hx)) hone hrel
        refine ⟨s :: rest3, ?_, i + 1, by simpa using hi⟩
        rw [← h2, acquireScan_cons, if_neg hsfail, hacq]
        rfl

/-- C9: after `goon_pool_acquire` hands out object `o` and
`goon_pool_release o` succeeds, the immediately following
`goon_pool_acquire` (any requested size — the pool ignores it when
reusing) returns exactly the pointer `o` and marks its slot in-use
again. -/
theorem pool_reuse (p : Pool) (sz sz2 : Nat) (o : Nat) (p1 p2 : Pool)
    (h1 : goon_pool_acquire p sz = (some o, p1))
    (h2 : goon_pool_release p1 o = (GOON_SUCCESS, p2)) :
    (goon_pool_acquire p2 sz2).1 = some o ∧
    ∃ i : Nat, (goon_pool_acquire p2 sz2).2.slots[i]? = some (⟨o, true⟩ : PoolSlot) := by
  have hone : o ≠ 0 := by
    intro h0
    rw [h0, goon_pool_release, if_pos rfl] at h2
    simp [GOON_ERROR_NULL_PTR, GOON_SUCCESS] at h2
  rw [goon_pool_release, if_neg hone] at h2
  unfold goon_pool_acquire at h1
  rcases hA : acquireScan p.slots with _ | r
  all_goals rw [hA] at h1
  · by_cases hcap : p.slots.length < p.capacity
    · rw [if_pos hcap] at h1
      simp only [Prod.mk.injEq, Option.some.injEq] at h1
      obtain ⟨ho, hp1⟩ := h1
      rw [← hp1] at h2
      simp only at h2
      rcases hR : releaseScan o (p.slots ++ [⟨p.fresh, true⟩]) with _ | slots2
      · rw [hR] at h2
        simp [GOON_ERROR_NOT_FOUND, GOON_SUCCESS] at h2
      · rw [hR] at h2
        simp only [Prod.mk.injEq, true_and] at h2
        rw [ho] at hR
        obtain ⟨slots3, hacq, i, hi⟩ :=
          reacquire_fresh_after_release p.slots o true slots2
            (acquireScan_none p.slots hA) hone hR
        have hp2slots : p2.slots = slots2 := by rw [← h2]
        unfold goon_pool_acquire
        rw [hp2slots, hacq]
        exact ⟨rfl, i, by simpa using hi⟩
    · rw [if_neg hcap] at h1
      simp at h1
  · simp only [Prod.mk.injEq, Option.some.injEq] at h1
    obtain ⟨ho, hp1⟩ := h1
    rw [← hp1] at h2
    simp only at h2
    rcases hR : releaseScan o r.2 with _ | slots2
    · rw [hR] at h2
      simp [GOON_ERROR_NOT_FOUND, GOON_SUCCESS] at h2
    · rw [hR] at h2
      simp only [Prod.mk.injEq, true_and] at h2
      obtain ⟨slots3, hacq, i, hi⟩ :=
        reacquire_after_release p.slots o r.2 slots2 (by rw [hA, ← ho]) hR
      have hp2slots : p2.slots = slots2 := by rw [← h2]
      unfold goon_pool_acquire
      rw [hp2slots, hacq]
      exact ⟨rfl, i, by simpa using hi⟩

/-- C9 witness: on an empty pool of capacity 2, acquiring yields pointer 1;
after releasing it, the next acquire returns pointer 1 again and re-marks
the slot. -/
theorem pool_reuse_witness :
    goon_pool_acquire ⟨[], 2, 1⟩ 8 = (some 1, ⟨[⟨1, true⟩], 2, 2⟩) ∧
    goon_pool_release ⟨[⟨1, true⟩], 2, 2⟩ 1 = (GOON_SUCCESS, ⟨[⟨1, false⟩], 2, 2⟩) ∧
    ((goon_pool_acquire (⟨[⟨1, false⟩], 2, 2⟩ : Pool) 4).1 = some 1 ∧
      ∃ i : Nat, (goon_pool_acquire (⟨[⟨1, false⟩], 2, 2⟩ : Pool) 4).2.slots[i]? =
        some (⟨1, true⟩ : PoolSlot)) :=
  ⟨by decide, by decide,
    pool_reuse ⟨[], 2, 1⟩ 8 4 1 ⟨[⟨1, true⟩], 2, 2⟩ ⟨[⟨1, false⟩], 2, 2⟩
      (by decide) (by decide)⟩

theorem releaseScan_already_free : ∀ (slots : List PoolSlot) (o : Nat) (i : Nat),
    (slots.map (fun s => s.ptr)).Nodup →
    slots[i]? = some (⟨o, false⟩ : PoolSlot) →
    releaseScan o slots = some slots := by
  intro slots
  induction slots with
  | nil => intro o i _ hg; simp at hg
  | cons s rest ih =>
    intro o i hnd hg
    simp only [List.map_cons, List.nodup_cons] at hnd
    obtain ⟨hnotmem, hnd2⟩ := hnd
    cases i with
    | zero =>
      simp only [List.getElem?_cons_zero, Option.some.injEq] at hg
      subst hg
      simp [releaseScan_cons]
    | succ j =>
      simp only [List.getElem?_cons_succ] at hg
      have hmem : (⟨o, false⟩ : PoolSlot) ∈ rest := by
        obtain ⟨hlt, hval⟩ := List.getElem?_eq_some.mp hg
        exact hval ▸ List.getElem_mem hlt
      have hp : s.ptr ≠ o := by
        intro hcon
        exact hnotmem (hcon ▸ List.mem_map_of_mem (fun s => s.ptr) hmem)
      rw [releaseScan_cons, if_neg hp, ih o j hnd2 hg]
      rfl

/-- C10: releasing a pool-owned object whose slot is already marked
not-in-use (slot pointers being distinct, as the pool's `alloc`
guarantees) returns `GOON_SUCCESS` and leaves the pool unchanged —
release is idempotent and a double release is not reported as an error. -/
theorem pool_double_release (p : Pool) (o : Nat) (i : Nat)
    (hone : o ≠ 0)
    (hnd : (p.slots.map (fun s => s.ptr)).Nodup)
    (hslot : p.slots[i]? = some (⟨o, false⟩ : PoolSlot)) :
    goon_pool_release p o = (GOON_SUCCESS, p) := by
  rw [goon_pool_release, if_neg hone, releaseScan_already_free p.slots o i hnd hslot]

/-- C10 witness: double release on a concrete single-slot pool succeeds
and changes nothing. -/
theorem pool_double_release_witness :
    ((5 : Nat) ≠ 0) ∧
    goon_pool_release ⟨[⟨5, false⟩], 2, 6⟩ 5 = (GOON_SUCCESS, ⟨[⟨5, false⟩], 2, 6⟩) :=
  ⟨by decide, pool_double_release ⟨[⟨5, false⟩], 2, 6⟩ 5 0 (by decide) (by decide) (by decide)⟩

/-! ### C8: event text serialization

`goon_event_serialize` is a single `snprintf` with format
`EVENT{id:%u,name:%s,priority:%d,timestamp:%ld}`;
`goon_event_deserialize` is a single `sscanf` with format
`EVENT{id:%u,name:%127[^,],priority:%d,timestamp:%ld}` accepting exactly
4 conversions.  The decimal printing of `%u`/`%d`/`%ld` and the
`strtoul`-style digit accumulation of `sscanf` are modelled explicitly.
`%u` stores modulo `2^32`; `%d`/`%ld` accept an optional minus sign (the
optional plus sign and out-of-range clamping of `strtol` are never
exercised here and are not modelled). -/

/-- One decimal digit as a character. -/
def digitChar : Nat → Char
  | 0 => '0'
  | 1 => '1'
  | 2 => '2'
  | 3 => '3'
  | 4 => '4'
  | 5 => '5'
  | 6 => '6'
  | 7 => '7'
  | 8 => '8'
  | _ => '9'

/-- Decimal digits of `n`, most significant first (the digit emission of
`printf` `%u`); `fuel ≥ n + 1` suffices. -/
def natDigitsAux : Nat → Nat → List Char
  | 0, _ => []
  | fuel + 1, n =>
    if n < 10 then [digitChar n]
    else natDigitsAux fuel (n / 10) ++ [digitChar (n % 10)]

/-- Decimal digits of `n`, most significant first. -/
def natDigits (n : Nat) : List Char := natDigitsAux (n + 1) n

/-- Decimal form of a signed value (`printf` `%d` / `%ld`). -/
def intDigits (i : Int) : List Char :=
  if i < 0 then '-' :: natDigits (-i).toNat else natDigits i.toNat

/-- The digit accumulation `value = value*10 + digit` performed by
`sscanf`. -/
def digitsVal (ds : List Char) : Nat :=
  ds.foldl (fun a c => a * 10 + (c.toNat - 48)) 0

/-- C `isspace` (the whitespace `%u`/`%d` skip). -/
def cIsSpace (c : Char) : Bool :=
  c == ' ' || c == '\t' || c == '\n' || c == '\x0b' || c == '\x0c' || c == '\r'

/-- A maximal run of decimal digits with its accumulated value; `none` if
the input does not start with a digit (conversion failure). -/
def parseNatFrom (cs : List Char) : Option (Nat × List Char) :=
  if (cs.takeWhile Char.isDigit).isEmpty then none
  else some (digitsVal (cs.takeWhile Char.isDigit), cs.dropWhile Char.isDigit)

/-- `sscanf` `%u`: skip whitespace, read digits, store modulo `2^32`. -/
def parseU (cs : List Char) : Option (Nat × List Char) :=
  (parseNatFrom (cs.dropWhile cIsSpace)).map (fun r => (r.1 % 2^32, r.2))

/-- `sscanf` `%d` / `%ld`: skip whitespace, optional minus sign, digits. -/
def parseD (cs : List Char) : Option (Int × List Char) :=
  if ((cs.dropWhile cIsSpace).head? = some '-') then
    (parseNatFrom (cs.dropWhile cIsSpace).tail).map (fun r => (-(r.1 : Int), r.2))
  else
    (parseNatFrom (cs.dropWhile cIsSpace)).map (fun r => ((r.1 : Int), r.2))

/-- Literal characters of the `sscanf` format: each must match the next
input character exactly. -/
def parseLit : List Char → List Char → Option (List Char)
  | [], cs => some cs
  | _ :: _, [] => none
  | l :: ls, c :: cs => if c = l then parseLit ls cs else none

/-- `sscanf` `%127[^,]`: up to 127 characters different from `','`; fails
on an empty match. -/
def parseNameField (cs : List Char) : Option (List Char × List Char) :=
  if ((cs.takeWhile (fun c => c != ',')).take 127).isEmpty then none
  else some ((cs.takeWhile (fun c => c != ',')).take 127,
    cs.drop ((cs.takeWhile (fun c => c != ',')).take 127).length)

/-- The exact character sequence `snprintf` produces for an event. -/
def serializeChars (e : Event) : List Char :=
  "EVENT\x7bid:".toList ++ (natDigits e.id ++ (",name:".toList ++ (e.name.toList ++
    (",priority:".toList ++ (intDigits e.priority ++ (",timestamp:".toList ++
      (intDigits e.timestamp ++ ['}'])))))))

/-- `goon_event_serialize`: `GOON_ERROR_NULL_PTR` on a zero-size buffer,
`GOON_ERROR_OVERFLOW` when `snprintf` would truncate
(`written >= buffer_size`), else the serialized text. -/
def goon_event_serialize (e : Event) (buffer_size : Nat) : Int × String :=
  if buffer_size = 0 then (GOON_ERROR_NULL_PTR, "")
  else if (serializeChars e).length ≥ buffer_size then
    (GOON_ERROR_OVERFLOW, String.mk ((serializeChars e).take (buffer_size - 1)))
  else
    (GOON_SUCCESS, String.mk (serializeChars e))

/-- `goon_event_deserialize`: the four conversions of the `sscanf` format,
then `goon_event_create` with the parsed name and priority, with `id` and
`timestamp` overwritten by the parsed values.  `sscanf` has already
returned 4 once the timestamp is converted, so the trailing `}` literal
cannot affect the `parsed == 4` check and is not consulted. -/
def goon_event_deserialize (nextId : Nat) (now : Int) (buffer : String) : Option Event := do
  let cs1 ← parseLit "EVENT\x7bid:".toList buffer.toList
  let (idv, cs2) ← parseU cs1
  let cs3 ← parseLit ",name:".toList cs2
  let (nm, cs4) ← parseNameField cs3
  let cs5 ← parseLit ",priority:".toList cs4
  let (pr, cs6) ← parseD cs5
  let cs7 ← parseLit ",timestamp:".toList cs6
  let (tsv, _) ← parseD cs7
  let ev := goon_event_create nextId (String.mk nm) pr now
  some { ev with id := idv, timestamp := tsv }

theorem toList_mk (l : List Char) : (String.mk l).toList = l := rfl

theorem mk_toList (s : String) : String.mk s.toList = s := rfl

theorem digitChar_toNat (d : Nat) (h : d < 10) : (digitChar d).toNat - 48 = d := by
  interval_cases d <;> decide

theorem digitChar_isDigit (d : Nat) (h : d < 10) : (digitChar d).isDigit = true := by
  interval_cases d <;> decide

theorem digitChar_not_space (d : Nat) (h : d < 10) : cIsSpace (digitChar d) = false := by
  interval_cases d <;> decide

theorem digitChar_ne_minus (d : Nat) (h : d < 10) : digitChar d ≠ '-' := by
  interval_cases d <;> decide

theorem natDigitsAux_ne_nil (fuel n : Nat) (h : n < fuel) : natDigitsAux fuel n ≠ [] := by
  cases fuel with
  | zero => omega
  | succ f =>
    simp only [natDigitsAux]
    by_cases h10 : n < 10
    · simp [h10]
    · simp [h10]

theorem natDigitsAux_digits (fuel : Nat) : ∀ n, n < fuel →
    ∀ c ∈ natDigitsAux fuel n, ∃ d, d < 10 ∧ c = digitChar d := by
  induction fuel with
  | zero => intro n h; omega
  | succ f ih =>
    intro n h c hc
    simp only [natDigitsAux] at hc
    by_cases h10 : n < 10
    · rw [if_pos h10] at hc
      simp at hc
      exact ⟨n, h10, hc⟩
    · rw [if_neg h10] at hc
      rcases List.mem_append.mp hc with h1 | h2
      · exact ih (n / 10) (by omega) c h1
      · simp at h2
        exact ⟨n % 10, by omega, h2⟩

theorem digitsVal_append_one (ds : List Char) (c : Char) :
    digitsVal (ds ++ [c]) = digitsVal ds * 10 + (c.toNat - 48) := by
  simp [digitsVal, List.foldl_append]

theorem digitsVal_natDigitsAux (fuel : Nat) : ∀ n, n < fuel →
    digitsVal (natDigitsAux fuel n) = n := by
  induction fuel with
  | zero => intro n h; omega
  | succ f ih =>
    intro n h
    simp only [natDigitsAux]
    by_cases h10 : n < 10
    · rw [if_pos h10]
      simp [digitsVal, digitChar_toNat n h10]
    · rw [if_neg h10, digitsVal_append_one, ih (n / 10) (by omega),
        digitChar_toNat (n % 10) (by omega)]
      omega

theorem natDigits_val (n : Nat) : digitsVal (natDigits n) = n :=
  digitsVal_natDigitsAux (n + 1) n (by omega)

theorem natDigits_ne_nil (n : Nat) : natDigits n ≠ [] :=
  natDigitsAux_ne_nil (n + 1) n (by omega)

theorem natDigits_digits (n : Nat) : ∀ c ∈ natDigits n, ∃ d, d < 10 ∧ c = digitChar d :=
  natDigitsAux_digits (n + 1) n (by omega)

theorem takeWhile_append_cons (p : Char → Bool) : ∀ (xs : List Char) (y : Char) (ys : List Char),
    (∀ c ∈ xs, p c = true) → p y = false →
    (xs ++ y :: ys).takeWhile p = xs ∧ (xs ++ y :: ys).dropWhile p = y :: ys := by
  intro xs
  induction xs with
  | nil => intro y ys _ hy; simp [List.takeWhile_cons, List.dropWhile_cons, hy]
  | cons x xs ih =>
    intro y ys hall hy
    have hx : p x = true := hall x (List.mem_cons_self x xs)
    have hr := ih y ys (fun c hc => hall c (List.mem_cons_of_mem x hc)) hy
    simp [List.takeWhile_cons, List.dropWhile_cons, hx, hr.1, hr.2]

theorem parseNatFrom_digits (n : Nat) (y : Char) (ys : List Char) (hy : y.isDigit = false) :
    parseNatFrom (natDigits n ++ y :: ys) = some (n, y :: ys) := by
  have hall : ∀ c ∈ natDigits n, c.isDigit = true := by
    intro c hc
    obtain ⟨d, hd, rfl⟩ := natDigits_digits n c hc
    exact digitChar_isDigit d hd
  obtain ⟨ht, hdrop⟩ := takeWhile_append_cons Char.isDigit (natDigits n) y ys hall hy
  rw [parseNatFrom, ht, hdrop, if_neg (by simp [natDigits_ne_nil n]), natDigits_val n]

theorem dropSpace_natDigits (n : Nat) (rest : List Char) :
    (natDigits n ++ rest).dropWhile cIsSpace = natDigits n ++ rest := by
  rcases hnd : natDigits n with _ | ⟨c, cs⟩
  · exact absurd hnd (natDigits_ne_nil n)
  · obtain ⟨d, hd, hc⟩ := natDigits_digits n c (by rw [hnd]; exact List.mem_cons_self c cs)
    simp [List.cons_append, List.dropWhile_cons, hc, digitChar_not_space d hd]

theorem parseU_digits (n : Nat) (y : Char) (ys : List Char) (hy : y.isDigit = false) :
    parseU (natDigits n ++ y :: ys) = some (n % 2^32, y :: ys) := by
  rw [parseU, dropSpace_natDigits, parseNatFrom_digits n y ys hy]
  rfl

theorem parseD_intDigits (i : Int) (y : Char) (ys : List Char) (hy : y.isDigit = false) :
    parseD (intDigits i ++ y :: ys) = some (i, y :: ys) := by
  by_cases hneg : i < 0
  · have hrw : intDigits i ++ y :: ys = '-' :: (natDigits (-i).toNat ++ y :: ys) := by
      simp [intDigits, hneg]
    have hdrop : (intDigits i ++ y :: ys).dropWhile cIsSpace =
        '-' :: (natDigits (-i).toNat ++ y :: ys) := by
      rw [hrw]
      simp [List.dropWhile_cons, cIsSpace]
    rw [parseD, hdrop]
    simp only [List.head?_cons, if_pos rfl, List.tail_cons,
      parseNatFrom_digits (-i).toNat y ys hy, Option.map_some']
    have : (((-i).toNat : Int)) = -i := Int.toNat_of_nonneg (by omega)
    rw [this]
    simp
  · have hrw : intDigits i ++ y :: ys = natDigits i.toNat ++ y :: ys := by
      simp [intDigits, hneg]
    have hdrop : (intDigits i ++ y :: ys).dropWhile cIsSpace =
        natDigits i.toNat ++ y :: ys := by
      rw [hrw, dropSpace_natDigits]
    have hhead : (natDigits i.toNat ++ y :: ys).head? ≠ some '-' := by
      rcases hnd : natDigits i.toNat with _ | ⟨c, cs⟩
      · exact absurd hnd (natDigits_ne_nil i.toNat)
      · obtain ⟨d, hd, hc⟩ := natDigits_digits i.toNat c
          (by rw [hnd]; exact List.mem_cons_self c cs)
        simp only [List.cons_append, List.head?_cons, ne_eq, Option.some.injEq]
        exact hc ▸ digitChar_ne_minus d hd
    rw [parseD, hdrop, if_neg hhead, parseNatFrom_digits i.toNat y ys hy]
    simp only [Option.map_some', Option.some.injEq, Prod.mk.injEq, and_true]
    exact Int.toNat_of_nonneg (by omega)

theorem parseLit_append : ∀ (lit rest : List Char), parseLit lit (lit ++ rest) = some rest := by
  intro lit
  induction lit with
  | nil => intro rest; rfl
  | cons l ls ih => intro rest; simp [parseLit, ih]

theorem parseNameField_name (nm : List Char) (rest : List Char)
    (hne : nm ≠ []) (hlen : nm.length ≤ 127) (hcomma : ∀ c ∈ nm, c ≠ ',') :
    parseNameField (nm ++ ',' :: rest) = some (nm, ',' :: rest) := by
  have hall : ∀ c ∈ nm, (c != ',') = true := by
    intro c hc
    simpa using hcomma c hc
  obtain ⟨ht, _⟩ := takeWhile_append_cons (fun c => c != ',') nm ',' rest hall (by decide)
  have htake : ((nm ++ ',' :: rest).takeWhile (fun c => c != ',')).take 127 = nm := by
    rw [ht, List.take_of_length_le hlen]
  rw [parseNameField, htake, if_neg (by simp [hne]), List.drop_left]

/-- C8 counterexample: the empty name satisfies the claim's hypotheses
(ASCII, no `','`, no `'}'`), yet `%127[^,]` fails on an empty match, so
deserializing the serialized form of an event named `""` yields `NULL` —
no round trip. -/
theorem roundtrip_counterexample :
    (goon_event_serialize ⟨1, "", 0, 0, 0, 0⟩ 64).1 = GOON_SUCCESS ∧
    goon_event_deserialize 1 0 (goon_event_serialize ⟨1, "", 0, 0, 0, 0⟩ 64).2 = none := by
  constructor <;> decide

/-- C8 (amended to nonempty names): serializing an event whose name is a
nonempty ASCII string free of `','` and `'}'` (and, per the Event
invariant, at most 127 characters) into a sufficiently large buffer and
deserializing the result yields an event with the same `id`, `name`,
`priority` and `timestamp`. -/
theorem serialize_roundtrip (e : Event) (buffer_size nextId : Nat) (now : Int)
    (hid : e.id < 2^32)
    (hname_ne : e.name.toList ≠ [])
    (hname_len : e.name.toList.length ≤ 127)
    (hname_ascii : ∀ c ∈ e.name.toList, 0 < c.toNat ∧ c.toNat < 128)
    (hname_comma : ∀ c ∈ e.name.toList, c ≠ ',')
    (hname_brace : ∀ c ∈ e.name.toList, c ≠ '}')
    (hbuf : (serializeChars e).length < buffer_size) :
    (goon_event_serialize e buffer_size).1 = GOON_SUCCESS ∧
    ∃ ev : Event,
      goon_event_deserialize nextId now (goon_event_serialize e buffer_size).2 = some ev ∧
      ev.id = e.id ∧ ev.name = e.name ∧ ev.priority = e.priority ∧
      ev.timestamp = e.timestamp := by
  have hbuf0 : buffer_size ≠ 0 := by omega
  have hser : goon_event_serialize e buffer_size = (GOON_SUCCESS, String.mk (serializeChars e)) := by
    rw [goon_event_serialize, if_neg hbuf0, if_neg (by omega)]
  refine ⟨by rw [hser], ?_⟩
  rw [hser]
  have e1 : parseLit "EVENT\x7bid:".toList (String.mk (serializeChars e)).toList =
      some (natDigits e.id ++ (",name:".toList ++ (e.name.toList ++ (",priority:".toList ++
        (intDigits e.priority ++ (",timestamp:".toList ++ (intDigits e.timestamp ++ ['}']))))))) :=
    parseLit_append _ _
  have e2 : parseU (natDigits e.id ++ (",name:".toList ++ (e.name.toList ++ (",priority:".toList ++
      (intDigits e.priority ++ (",timestamp:".toList ++ (intDigits e.timestamp ++ ['}']))))))) =
      some (e.id % 2^32, ',' :: ("name:".toList ++ (e.name.toList ++ (",priority:".toList ++
        (intDigits e.priority ++ (",timestamp:".toList ++ (intDigits e.timestamp ++ ['}']))))))) :=
    parseU_digits e.id ',' _ (by decide)
  have e3 : parseLit ",name:".toList (',' :: ("name:".toList ++ (e.name.toList ++
      (",priority:".toList ++ (intDigits e.priority ++ (",timestamp:".toList ++
        (intDigits e.timestamp ++ ['}']))))))) =
      some (e.name.toList ++ (",priority:".toList ++ (intDigits e.priority ++
        (",timestamp:".toList ++ (intDigits e.timestamp ++ ['}']))))) :=
    parseLit_append _ _
  have e4 : parseNameField (e.name.toList ++ (",priority:".toList ++ (intDigits e.priority ++
      (",timestamp:".toList ++ (intDigits e.timestamp ++ ['}']))))) =
      some (e.name.toList, ',' :: ("priority:".toList ++ (intDigits e.priority ++
        (",timestamp:".toList ++ (intDigits e.timestamp ++ ['}']))))) :=
    parseNameField_name e.name.toList _ hname_ne hname_len hname_comma
  have e5 : parseLit ",priority:".toList (',' :: ("priority:".toList ++ (intDigits e.priority ++
      (",timestamp:".toList ++ (intDigits e.timestamp ++ ['}']))))) =
      some (intDigits e.priority ++ (",timestamp:".toList ++ (intDigits e.timestamp ++ ['}']))) :=
    parseLit_append _ _
  have e6 : parseD (intDigits e.priority ++ (",timestamp:".toList ++
      (intDigits e.timestamp ++ ['}']))) =
      some (e.priority, ',' :: ("timestamp:".toList ++ (intDigits e.timestamp ++ ['}']))) :=
    parseD_intDigits e.priority ',' _ (by decide)
  have e7 : parseLit ",timestamp:".toList (',' :: ("timestamp:".toList ++
      (intDigits e.timestamp ++ ['}']))) =
      some (intDigits e.timestamp ++ ['}']) :=
    parseLit_append _ _
  have e8 : parseD (intDigits e.timestamp ++ ['}']) = some (e.timestamp, ['}']) :=
    parseD_intDigits e.timestamp '}' [] (by decide)
  refine ⟨{ goon_event_create nextId (String.mk e.name.toList) e.priority now with
    id := e.id % 2^32, timestamp := e.timestamp }, ?_, ?_, ?_, rfl, rfl⟩
  · rw [goon_event_deserialize]
    rw [e1]
    simp only [Option.bind_eq_bind, Option.some_bind]
    rw [e2]
    simp only [Option.some_bind]
    rw [e3]
    simp only [Option.some_bind]
    rw [e4]
    simp only [Option.some_bind]
    rw [e5]
    simp only [Option.some_bind]
    rw [e6]
    simp only [Option.some_bind]
    rw [e7]
    simp only [Option.some_bind]
    rw [e8]
    simp only [Option.some_bind]
  · exact Nat.mod_eq_of_lt hid
  · simp only [goon_event_create, toList_mk]
    rw [List.take_of_length_le (by simpa [GOON_MAX_NAME_LEN] using hname_len), mk_toList]

/-- C8 witness: a concrete event named `"ab"` round-trips through
serialize/deserialize preserving `id`, `name`, `priority`, `timestamp`. -/
theorem serialize_roundtrip_witness :
    ((⟨5, "ab", 2, 100, 0, 0⟩ : Event).id < 2^32) ∧
    ((⟨5, "ab", 2, 100, 0, 0⟩ : Event).name.toList ≠ []) ∧
    ((serializeChars ⟨5, "ab", 2, 100, 0, 0⟩).length < 64) ∧
    ((goon_event_serialize ⟨5, "ab", 2, 100, 0, 0⟩ 64).1 = GOON_SUCCESS ∧
      ∃ ev : Event,
        goon_event_deserialize 9 50 (goon_event_serialize ⟨5, "ab", 2, 100, 0, 0⟩ 64).2 =
          some ev ∧
        ev.id = (⟨5, "ab", 2, 100, 0, 0⟩ : Event).id ∧
        ev.name = (⟨5, "ab", 2, 100, 0, 0⟩ : Event).name ∧
        ev.priority = (⟨5, "ab", 2, 100, 0, 0⟩ : Event).priority ∧
        ev.timestamp = (⟨5, "ab", 2, 100, 0, 0⟩ : Event).timestamp) :=
  ⟨by decide, by decide, by decide,
    serialize_roundtrip ⟨5, "ab", 2, 100, 0, 0⟩ 64 9 50 (by decide) (by decide) (by decide)
      (by decide) (by decide) (by decide) (by decide)⟩

end Goon
